import Mathlib

/-!
Verification of the deferred-deletion and frame-cycle core of
`src/Common/Vulkan/VulkanContext.h` (PPSSPP Vulkan context).

The `VulkanDeleteList` class is embedded directly from the header: its nine
per-kind buckets become nine `List Nat` fields (Vulkan handles are opaque
64-bit values; we model them as `Nat`), `push_back` becomes list append,
`Take` (whose asserts demand an empty destination) becomes an `Option`-valued
function that is `none` exactly when an assert would fire, and
`PerformDeletes` returns the ordered sequence of device-level destroy calls
it issues together with the cleared list.

The frame-cycle controller (`BeginSurfaceRenderPass` / `EndSurfaceRenderPass`
/ frame rotation) is declared in the header but implemented in a translation
unit that is not part of the sources; where a claim depends on that
behaviour, the model is built from the specification and marked as such.
-/

/-- The nine kinds of GPU object handles managed by `VulkanDeleteList`
(fields `descPools_` .. `pipelineCaches_` in the source). -/
inductive VkObjectKind where
  | descriptorPool
  | shaderModule
  | buffer
  | bufferView
  | image
  | imageView
  | deviceMemory
  | sampler
  | pipelineCache
deriving DecidableEq, Repr

/-- Embedding of class `VulkanDeleteList`: nine vectors of handles awaiting
destruction, one per object kind. Handles are modelled as `Nat`. -/
structure VulkanDeleteList where
  descPools_ : List Nat
  modules_ : List Nat
  buffers_ : List Nat
  bufferViews_ : List Nat
  images_ : List Nat
  imageViews_ : List Nat
  deviceMemory_ : List Nat
  samplers_ : List Nat
  pipelineCaches_ : List Nat
deriving DecidableEq, Repr

namespace VulkanDeleteList

/-- A default-constructed `VulkanDeleteList`: all nine vectors empty. -/
def empty : VulkanDeleteList :=
  ⟨[], [], [], [], [], [], [], [], []⟩

/-- `QueueDeleteDescriptorPool(pool) { descPools_.push_back(pool); }` -/
def QueueDeleteDescriptorPool (dl : VulkanDeleteList) (pool : Nat) : VulkanDeleteList :=
  { dl with descPools_ := dl.descPools_ ++ [pool] }

/-- `QueueDeleteShaderModule(module) { modules_.push_back(module); }` -/
def QueueDeleteShaderModule (dl : VulkanDeleteList) (module : Nat) : VulkanDeleteList :=
  { dl with modules_ := dl.modules_ ++ [module] }

/-- `QueueDeleteBuffer(buffer) { buffers_.push_back(buffer); }` -/
def QueueDeleteBuffer (dl : VulkanDeleteList) (buffer : Nat) : VulkanDeleteList :=
  { dl with buffers_ := dl.buffers_ ++ [buffer] }

/-- `QueueDeleteBufferView(bufferView) { bufferViews_.push_back(bufferView); }` -/
def QueueDeleteBufferView (dl : VulkanDeleteList) (bufferView : Nat) : VulkanDeleteList :=
  { dl with bufferViews_ := dl.bufferViews_ ++ [bufferView] }

/-- `QueueDeleteImage(image) { images_.push_back(image); }` -/
def QueueDeleteImage (dl : VulkanDeleteList) (image : Nat) : VulkanDeleteList :=
  { dl with images_ := dl.images_ ++ [image] }

/-- `QueueDeleteImageView(imageView) { imageViews_.push_back(imageView); }` -/
def QueueDeleteImageView (dl : VulkanDeleteList) (imageView : Nat) : VulkanDeleteList :=
  { dl with imageViews_ := dl.imageViews_ ++ [imageView] }

/-- `QueueDeleteDeviceMemory(deviceMemory) { deviceMemory_.push_back(deviceMemory); }` -/
def QueueDeleteDeviceMemory (dl : VulkanDeleteList) (mem : Nat) : VulkanDeleteList :=
  { dl with deviceMemory_ := dl.deviceMemory_ ++ [mem] }

/-- `QueueDeleteSampler(sampler) { samplers_.push_back(sampler); }` -/
def QueueDeleteSampler (dl : VulkanDeleteList) (sampler : Nat) : VulkanDeleteList :=
  { dl with samplers_ := dl.samplers_ ++ [sampler] }

/-- `QueueDeletePipelineCache(pipelineCache) { pipelineCaches_.push_back(pipelineCache); }` -/
def QueueDeletePipelineCache (dl : VulkanDeleteList) (pipelineCache : Nat) : VulkanDeleteList :=
  { dl with pipelineCaches_ := dl.pipelineCaches_ ++ [pipelineCache] }

/-- The bucket (vector field) of `dl` holding handles of kind `k`. -/
def bucket (dl : VulkanDeleteList) : VkObjectKind → List Nat
  | .descriptorPool => dl.descPools_
  | .shaderModule => dl.modules_
  | .buffer => dl.buffers_
  | .bufferView => dl.bufferViews_
  | .image => dl.images_
  | .imageView => dl.imageViews_
  | .deviceMemory => dl.deviceMemory_
  | .sampler => dl.samplers_
  | .pipelineCache => dl.pipelineCaches_

/-- Kind-dispatching wrapper over the nine `QueueDelete...` member functions. -/
def queueDelete (dl : VulkanDeleteList) : VkObjectKind → Nat → VulkanDeleteList
  | .descriptorPool, h => dl.QueueDeleteDescriptorPool h
  | .shaderModule, h => dl.QueueDeleteShaderModule h
  | .buffer, h => dl.QueueDeleteBuffer h
  | .bufferView, h => dl.QueueDeleteBufferView h
  | .image, h => dl.QueueDeleteImage h
  | .imageView, h => dl.QueueDeleteImageView h
  | .deviceMemory, h => dl.QueueDeleteDeviceMemory h
  | .sampler, h => dl.QueueDeleteSampler h
  | .pipelineCache, h => dl.QueueDeletePipelineCache h

/-- The conjunction checked by the nine `assert(....size() == 0)` statements at
the top of `VulkanDeleteList::Take`. -/
def allBucketsEmpty (dl : VulkanDeleteList) : Prop :=
  dl.descPools_.length = 0 ∧ dl.modules_.length = 0 ∧ dl.buffers_.length = 0 ∧
  dl.bufferViews_.length = 0 ∧ dl.images_.length = 0 ∧ dl.imageViews_.length = 0 ∧
  dl.deviceMemory_.length = 0 ∧ dl.samplers_.length = 0 ∧ dl.pipelineCaches_.length = 0

instance (dl : VulkanDeleteList) : Decidable dl.allBucketsEmpty := by
  unfold allBucketsEmpty; infer_instance

/-- `VulkanDeleteList::Take(VulkanDeleteList &del)`: asserts every bucket of
`self` is empty, then move-assigns every bucket of `del` into `self`.
Modelled as returning `none` when an assert fires (the process aborts), and
otherwise `some (self_after, del_after)`; moving from a `std::vector` leaves
the source vector empty. -/
def Take (dl del : VulkanDeleteList) : Option (VulkanDeleteList × VulkanDeleteList) :=
  if dl.allBucketsEmpty then
    some ({ descPools_ := del.descPools_
            modules_ := del.modules_
            buffers_ := del.buffers_
            bufferViews_ := del.bufferViews_
            images_ := del.images_
            imageViews_ := del.imageViews_
            deviceMemory_ := del.deviceMemory_
            samplers_ := del.samplers_
            pipelineCaches_ := del.pipelineCaches_ }, empty)
  else
    none

/-- `VulkanDeleteList::PerformDeletes(VkDevice device)`: issues one
device-level destroy call per enqueued handle, bucket by bucket in the
source's fixed order (descriptor pools, shader modules, buffers, buffer
views, images, image views, device memory, samplers, pipeline caches),
clearing each bucket. Returns the ordered sequence of destroy calls as
(kind, handle) pairs, together with the cleared list. -/
def PerformDeletes (dl : VulkanDeleteList) : List (VkObjectKind × Nat) × VulkanDeleteList :=
  (dl.descPools_.map (fun h => (VkObjectKind.descriptorPool, h)) ++
   dl.modules_.map (fun h => (VkObjectKind.shaderModule, h)) ++
   dl.buffers_.map (fun h => (VkObjectKind.buffer, h)) ++
   dl.bufferViews_.map (fun h => (VkObjectKind.bufferView, h)) ++
   dl.images_.map (fun h => (VkObjectKind.image, h)) ++
   dl.imageViews_.map (fun h => (VkObjectKind.imageView, h)) ++
   dl.deviceMemory_.map (fun h => (VkObjectKind.deviceMemory, h)) ++
   dl.samplers_.map (fun h => (VkObjectKind.sampler, h)) ++
   dl.pipelineCaches_.map (fun h => (VkObjectKind.pipelineCache, h)),
   empty)

/-- The sequence of destroy calls `PerformDeletes` makes for handles of a
single kind `k`, in order. -/
def destroysOfKind (dl : VulkanDeleteList) (k : VkObjectKind) : List Nat :=
  ((dl.PerformDeletes.1.filter (fun p => p.1 = k)).map Prod.snd)

end VulkanDeleteList

/-- `FrameData frame_[2]` in `VulkanContext`: the number of frame slots. -/
def numFrameSlots : Nat := 2

/-- Slot selection as in `GetSurfaceCommandBuffer`:
`frame_[curFrame_ & 1]` — the slot index is the frame counter ANDed with 1. -/
def frameSlotIndex (curFrame : Nat) : Nat := curFrame &&& 1

namespace VulkanDeleteList

/-- The assert conjunction in `Take` holds exactly when every bucket is empty. -/
theorem allBucketsEmpty_iff (dl : VulkanDeleteList) :
    dl.allBucketsEmpty ↔ ∀ k, dl.bucket k = [] := by
  unfold allBucketsEmpty
  constructor
  · rintro ⟨h1, h2, h3, h4, h5, h6, h7, h8, h9⟩ k
    cases k <;> simp_all [bucket, List.length_eq_zero]
  · intro hk
    refine ⟨?_, ?_, ?_, ?_, ?_, ?_, ?_, ?_, ?_⟩ <;>
      simp [show dl.descPools_ = [] from hk .descriptorPool,
            show dl.modules_ = [] from hk .shaderModule,
            show dl.buffers_ = [] from hk .buffer,
            show dl.bufferViews_ = [] from hk .bufferView,
            show dl.images_ = [] from hk .image,
            show dl.imageViews_ = [] from hk .imageView,
            show dl.deviceMemory_ = [] from hk .deviceMemory,
            show dl.samplers_ = [] from hk .sampler,
            show dl.pipelineCaches_ = [] from hk .pipelineCache]

end VulkanDeleteList

/-- C2: `Take` (absorb) into a destination with any non-empty bucket trips an
assert (modelled as `none`) in 100% of cases; into an all-empty destination it
succeeds, leaving the destination holding, per kind, exactly the concatenation
of the destination's (empty) bucket with the source's bucket — the union of
both inputs in FIFO order — and leaving the source's buckets empty. -/
theorem claim_C2_absorb (dl other : VulkanDeleteList) :
    ((∃ k, dl.bucket k ≠ []) → dl.Take other = none) ∧
    ((∀ k, dl.bucket k = []) →
      ∃ r, dl.Take other = some r ∧
        (∀ k, r.1.bucket k = dl.bucket k ++ other.bucket k) ∧
        (∀ k, r.2.bucket k = [])) := by
  constructor
  · rintro ⟨k, hk⟩
    have hne : ¬ dl.allBucketsEmpty := fun h =>
      hk ((dl.allBucketsEmpty_iff).mp h k)
    simp [VulkanDeleteList.Take, hne]
  · intro hk
    have he : dl.allBucketsEmpty := (dl.allBucketsEmpty_iff).mpr hk
    have ht : dl.Take other = some (⟨other.descPools_, other.modules_, other.buffers_,
        other.bufferViews_, other.images_, other.imageViews_, other.deviceMemory_,
        other.samplers_, other.pipelineCaches_⟩, VulkanDeleteList.empty) := by
      unfold VulkanDeleteList.Take
      rw [if_pos he]
    refine ⟨_, ht, ?_, ?_⟩
    · intro k
      rw [hk k]
      cases k <;> rfl
    · intro k
      cases k <;> rfl

/-- Witness for C2 at concrete inputs: a destination with one queued buffer
makes `Take` fail its assert; the empty destination absorbs a queue holding
image 4 and buffer 9, ending with exactly those handles per kind. -/
theorem claim_C2_absorb_witness :
    (VulkanDeleteList.empty.QueueDeleteBuffer 7).Take VulkanDeleteList.empty = none ∧
    ∃ r, VulkanDeleteList.empty.Take
        ((VulkanDeleteList.empty.QueueDeleteImage 4).QueueDeleteBuffer 9) = some r ∧
      r.1.bucket .image = [4] ∧ r.1.bucket .buffer = [9] ∧ r.2.bucket .image = [] := by
  refine ⟨(claim_C2_absorb (VulkanDeleteList.empty.QueueDeleteBuffer 7)
      VulkanDeleteList.empty).1 ⟨.buffer, by decide⟩, ?_⟩
  obtain ⟨r, hr, h1, h2⟩ := (claim_C2_absorb VulkanDeleteList.empty
      ((VulkanDeleteList.empty.QueueDeleteImage 4).QueueDeleteBuffer 9)).2
      (by intro k; cases k <;> rfl)
  exact ⟨r, hr, h1 .image, h1 .buffer, h2 .image⟩

/-- C5: there are exactly 2 frame slots (`FrameData frame_[2]`), and the slot
selected for frame counter `n` (`curFrame_ & 1`) equals `n mod 2`; hence
counters `n` and `n+2` select the same slot and `n` and `n+1` differ. -/
theorem claim_C5_slot_rotation :
    numFrameSlots = 2 ∧ ∀ n : Nat, frameSlotIndex n = n % 2 ∧
      frameSlotIndex (n + 2) = frameSlotIndex n ∧
      frameSlotIndex (n + 1) ≠ frameSlotIndex n := by
  refine ⟨rfl, fun n => ⟨?_, ?_, ?_⟩⟩ <;>
    simp only [frameSlotIndex, Nat.and_one_is_mod] <;> omega

/-- C6: `queueDelete k h` appends `h` at the back of kind `k`'s bucket and
leaves every other bucket unchanged; it is a pure bookkeeping update of the
list structure with no other effect. -/
theorem claim_C6_enqueue_appends (dl : VulkanDeleteList) (k : VkObjectKind) (h : Nat) :
    (dl.queueDelete k h).bucket k = dl.bucket k ++ [h] ∧
    ∀ k', k' ≠ k → (dl.queueDelete k h).bucket k' = dl.bucket k' := by
  constructor
  · cases k <;> rfl
  · intro k' hne
    cases k <;> cases k' <;> first
      | rfl
      | exact absurd rfl hne

/-- Witness for C6: queueing buffer 5 into the empty list appends to the
buffer bucket and leaves the image bucket unchanged. -/
theorem claim_C6_enqueue_appends_witness :
    (VulkanDeleteList.empty.queueDelete .buffer 5).bucket .buffer =
      VulkanDeleteList.empty.bucket .buffer ++ [5] ∧
    (VulkanDeleteList.empty.queueDelete .buffer 5).bucket .image =
      VulkanDeleteList.empty.bucket .image :=
  ⟨(claim_C6_enqueue_appends VulkanDeleteList.empty .buffer 5).1,
   (claim_C6_enqueue_appends VulkanDeleteList.empty .buffer 5).2 .image (by decide)⟩

/-- C10: after a successful `Take`, every bucket of the source list is empty
(move-assignment strips the source), so a later `PerformDeletes` on the source
can destroy none of the transferred handles: no double destroy via hand-off. -/
theorem claim_C10_source_emptied (dl other : VulkanDeleteList)
    (r : VulkanDeleteList × VulkanDeleteList) (hr : dl.Take other = some r) :
    (∀ k, r.2.bucket k = []) ∧ r.2.PerformDeletes.1 = [] := by
  unfold VulkanDeleteList.Take at hr
  split at hr
  · cases hr
    exact ⟨fun k => by cases k <;> rfl, rfl⟩
  · cases hr

/-- Witness for C10: a successful concrete `Take` leaves the source's buffer
bucket empty and its `PerformDeletes` issues no destroy call. -/
theorem claim_C10_source_emptied_witness :
    (VulkanDeleteList.empty.Take (VulkanDeleteList.empty.QueueDeleteBuffer 3) =
      some ((VulkanDeleteList.empty.QueueDeleteBuffer 3), VulkanDeleteList.empty)) ∧
    (VulkanDeleteList.empty.bucket .buffer = [] ∧
      VulkanDeleteList.empty.PerformDeletes.1 = []) := by
  refine ⟨by decide, ?_⟩
  have h := claim_C10_source_emptied VulkanDeleteList.empty
    (VulkanDeleteList.empty.QueueDeleteBuffer 3)
    ((VulkanDeleteList.empty.QueueDeleteBuffer 3), VulkanDeleteList.empty) (by decide)
  exact ⟨h.1 .buffer, h.2⟩

namespace VulkanDeleteList

/-- Filtering a constant-kind pairing by kind keeps everything or nothing. -/
theorem filter_map_kind (kj k : VkObjectKind) (l : List Nat) :
    ((l.map fun h => (kj, h)).filter fun p => p.1 = k) =
      if kj = k then l.map (fun h => (kj, h)) else [] := by
  induction l with
  | nil => simp
  | cons a t ih =>
    by_cases hk : kj = k <;> simp [hk] at ih ⊢

/-- Counting a (kind, handle) pair equals counting the handle among the
same-kind entries. -/
theorem count_pair (l : List (VkObjectKind × Nat)) (k : VkObjectKind) (h : Nat) :
    l.count (k, h) = ((l.filter fun p => p.1 = k).map Prod.snd).count h := by
  induction l with
  | nil => rfl
  | cons a t ih =>
    obtain ⟨ka, ha⟩ := a
    by_cases hk : ka = k
    · subst hk
      by_cases hh : ha = h
      · subst hh
        simp [List.count_cons, ih]
      · simp [List.count_cons, hh, ih]
    · have : ((k, h) = (ka, ha)) = False := by
        simp
        intro hkk
        exact absurd hkk.symm hk
      simp [List.count_cons, this, hk, ih]

/-- The destroy calls `PerformDeletes` makes for kind `k` are exactly the
bucket of kind `k`, in bucket order. -/
theorem destroysOfKind_eq_bucket (dl : VulkanDeleteList) (k : VkObjectKind) :
    dl.destroysOfKind k = dl.bucket k := by
  cases k <;>
    simp [destroysOfKind, PerformDeletes, bucket, List.filter_append,
      filter_map_kind, List.map_map, Function.comp]

/-- Multiplicity of each destroy call equals the handle's multiplicity in the
bucket of its kind. -/
theorem count_PerformDeletes (dl : VulkanDeleteList) (k : VkObjectKind) (h : Nat) :
    dl.PerformDeletes.1.count (k, h) = (dl.bucket k).count h := by
  rw [count_pair, ← destroysOfKind_eq_bucket]
  rfl

/-- Applying a sequence of enqueue operations (kind, handle) in order. -/
def enqueueAll (dl : VulkanDeleteList) (ops : List (VkObjectKind × Nat)) : VulkanDeleteList :=
  ops.foldl (fun d p => d.queueDelete p.1 p.2) dl

/-- Effect of one `queueDelete` on each bucket. -/
theorem bucket_queueDelete (dl : VulkanDeleteList) (k : VkObjectKind) (h : Nat)
    (k' : VkObjectKind) :
    (dl.queueDelete k h).bucket k' = dl.bucket k' ++ if k' = k then [h] else [] := by
  cases k <;> cases k' <;>
    simp [queueDelete, bucket, QueueDeleteDescriptorPool, QueueDeleteShaderModule,
      QueueDeleteBuffer, QueueDeleteBufferView, QueueDeleteImage, QueueDeleteImageView,
      QueueDeleteDeviceMemory, QueueDeleteSampler, QueueDeletePipelineCache]

/-- Bucket contents after a sequence of enqueues: the original bucket followed
by the enqueued handles of that kind, in enqueue order. -/
theorem bucket_enqueueAll (ops : List (VkObjectKind × Nat)) (dl : VulkanDeleteList)
    (k : VkObjectKind) :
    (dl.enqueueAll ops).bucket k =
      dl.bucket k ++ (ops.filter (fun p => p.1 = k)).map Prod.snd := by
  induction ops generalizing dl with
  | nil => simp [enqueueAll]
  | cons p t ih =>
    obtain ⟨kp, hp⟩ := p
    show ((dl.queueDelete kp hp).enqueueAll t).bucket k = _
    rw [ih, bucket_queueDelete]
    by_cases hk : kp = k
    · subst hk
      simp
    · have hk2 : (k = kp) = False := by simp [Ne.symm hk]
      simp [hk2, hk]

end VulkanDeleteList

/-- C3: `PerformDeletes` (drain) issues the destroy call for each enqueued
handle's kind exactly as many times as that handle was enqueued into that
kind's bucket (once per enqueued handle), and afterwards every bucket of the
returned list is empty. -/
theorem claim_C3_drain_destroys_all (dl : VulkanDeleteList) :
    (∀ (k : VkObjectKind) (h : Nat),
      dl.PerformDeletes.1.count (k, h) = (dl.bucket k).count h) ∧
    ∀ k, dl.PerformDeletes.2.bucket k = [] := by
  refine ⟨fun k h => VulkanDeleteList.count_PerformDeletes dl k h, fun k => ?_⟩
  cases k <;> rfl

/-- C4: within each kind, `PerformDeletes` destroys handles in the order they
were enqueued (FIFO within a kind): for any sequence of enqueue operations
applied to the empty list, the destroy calls of kind `k` are exactly the
kind-`k` enqueues in their original order. -/
theorem claim_C4_fifo_within_kind (ops : List (VkObjectKind × Nat)) (k : VkObjectKind) :
    (VulkanDeleteList.empty.enqueueAll ops).destroysOfKind k =
      (ops.filter (fun p => p.1 = k)).map Prod.snd := by
  rw [VulkanDeleteList.destroysOfKind_eq_bucket, VulkanDeleteList.bucket_enqueueAll]
  have : VulkanDeleteList.empty.bucket k = [] := by cases k <;> rfl
  simp [this]

/-- Modelled from the spec: the Frame Cycle Controller's phases (the
implementation of `BeginSurfaceRenderPass` / `EndSurfaceRenderPass` lives in
a translation unit absent from the sources). `Presented` immediately folds
back into `idle` after the counter increment. -/
inductive Phase where
  | idle
  | recording
  | submitted
deriving DecidableEq, Repr

/-- Modelled from the spec: controller state for the acquire/record/submit/
present machine — frame counter, phase, the two slots' fence-signaled flags
and render command buffers (`frame_[2]` with `fence` and `cmdBuf`), the
queue of auxiliary command buffers (`cmdQueue_`), and a log of submitted
batches. Command buffers are opaque handles modelled as `Nat`. -/
structure Controller where
  curFrame : Nat
  phase : Phase
  fence0Signaled : Bool
  fence1Signaled : Bool
  cmdBuf0 : Nat
  cmdBuf1 : Nat
  cmdQueue : List Nat
  submissions : List (List Nat)
deriving DecidableEq, Repr

namespace Controller

/-- Modelled from the spec: a freshly created controller. Each slot's fence
starts pre-signaled (`CreateFence(true)` on first use), no batch submitted,
no auxiliary command buffer queued. -/
def create : Controller where
  curFrame := 0
  phase := .idle
  fence0Signaled := true
  fence1Signaled := true
  cmdBuf0 := 100
  cmdBuf1 := 101
  cmdQueue := []
  submissions := []

/-- The fence-signaled flag of slot `s`. -/
def fenceOf (st : Controller) (s : Nat) : Bool :=
  if s = 0 then st.fence0Signaled else st.fence1Signaled

/-- The render command buffer of slot `s`. -/
def cmdBufOf (st : Controller) (s : Nat) : Nat :=
  if s = 0 then st.cmdBuf0 else st.cmdBuf1

/-- Overwrite the fence-signaled flag of slot `s`. -/
def setFence (st : Controller) (s : Nat) (b : Bool) : Controller :=
  if s = 0 then { st with fence0Signaled := b } else { st with fence1Signaled := b }

theorem setFence_curFrame (st : Controller) (s : Nat) (b : Bool) :
    (st.setFence s b).curFrame = st.curFrame := by
  unfold setFence; split <;> rfl

theorem setFence_phase (st : Controller) (s : Nat) (b : Bool) :
    (st.setFence s b).phase = st.phase := by
  unfold setFence; split <;> rfl

end Controller

/-- Modelled from the spec: result of the platform image-acquisition call —
either the next image index, or a stale/out-of-date swapchain signal. -/
inductive AcquireRes where
  | ok (imageIndex : Nat)
  | outOfDate
deriving DecidableEq, Repr

/-- Modelled from the spec: what `begin-render` hands back — the slot's
command buffer and image index on success (entering `recording`), or the
distinct stale-swapchain condition. -/
inductive BeginRes where
  | recording (cmdBuf imageIndex : Nat)
  | stale
deriving DecidableEq, Repr

/-- Modelled from the spec: outcome of one `begin-render` call. `promptWait`
records whether the slot's fence was already signaled when the bounded fence
wait ran (an unsignaled fence with no pending GPU work blocks to timeout). -/
structure BeginOutcome where
  result : BeginRes
  promptWait : Bool
deriving DecidableEq, Repr

/-- Modelled from the spec: `BeginSurfaceRenderPass` (implementation absent
from the sources). Select slot `counter mod 2`; wait on that slot's fence
(`promptWait` is whether it was already signaled); reset the fence; then ask
the platform for the next image. On a stale/out-of-date report, surface the
stale condition without entering `recording` and without touching the frame
counter; on success, enter `recording` and return the slot's command buffer
with the image index. (The deletion-queue drain/absorb that happens between
the fence wait and acquisition is modelled separately by `FrameMachine`.) -/
def beginSurfaceRenderPass (st : Controller) (acq : AcquireRes) :
    BeginOutcome × Controller :=
  let s := st.curFrame % 2
  let prompt := st.fenceOf s
  let st1 := st.setFence s false
  match acq with
  | .outOfDate => (⟨.stale, prompt⟩, st1)
  | .ok idx => (⟨.recording (st.cmdBufOf s) idx, prompt⟩, { st1 with phase := .recording })

/-- Modelled from the spec: `QueueBeforeSurfaceRender(cmd)` appends `cmd` to
`cmdQueue_`, the auxiliary command buffers to run before the surface render
pass. -/
def queueBeforeSurfaceRender (st : Controller) (cmd : Nat) : Controller :=
  { st with cmdQueue := st.cmdQueue ++ [cmd] }

/-- Modelled from the spec: `EndSurfaceRenderPass` (implementation absent
from the sources). Closes recording and submits, for the current slot, the
queued auxiliary command buffers in queue order followed by the slot's
primary render command buffer, with the slot's fence attached; the queue is
cleared. -/
def endSurfaceRenderPass (st : Controller) : Controller :=
  let s := st.curFrame % 2
  { st with phase := .submitted
            submissions := st.submissions ++ [st.cmdQueue ++ [st.cmdBufOf s]]
            cmdQueue := [] }

/-- Modelled from the spec: presentation of the acquired image, after which
the frame counter is incremented and the controller returns to `idle`. -/
def presentFrame (st : Controller) : Controller :=
  { st with phase := .idle, curFrame := st.curFrame + 1 }

/-- C7: whenever acquisition reports a stale/out-of-date swapchain,
`begin-render` returns the distinct stale condition, the phase is unchanged
(in particular `recording` is not entered from `idle`), and the frame
counter is not advanced. -/
theorem claim_C7_stale_no_advance (st : Controller) :
    (beginSurfaceRenderPass st AcquireRes.outOfDate).1.result = BeginRes.stale ∧
    (beginSurfaceRenderPass st AcquireRes.outOfDate).2.curFrame = st.curFrame ∧
    (beginSurfaceRenderPass st AcquireRes.outOfDate).2.phase = st.phase :=
  ⟨rfl, Controller.setFence_curFrame st (st.curFrame % 2) false,
    Controller.setFence_phase st (st.curFrame % 2) false⟩

/-- C8 counterexample: the claim's scenario — two consecutive `begin-render`
calls on a fresh controller with no submission in between — does not leave
both waits prompt. Both calls select slot 0 (the counter only advances at
presentation), and the first call resets slot 0's fence after its wait, so
the second call's fence wait finds an unsignaled fence. -/
theorem claim_C8_counterexample :
    (beginSurfaceRenderPass Controller.create (AcquireRes.ok 0)).1.promptWait = true ∧
    (beginSurfaceRenderPass
      (beginSurfaceRenderPass Controller.create (AcquireRes.ok 0)).2
      (AcquireRes.ok 0)).1.promptWait = false := by
  decide

/-- C8 (amended): each slot's fence starts pre-signaled on a fresh
controller, so the first fence wait on each slot is prompt: `begin-render`
for cycle 0 waits promptly on slot 0, and after that cycle is submitted and
presented, `begin-render` for cycle 1 waits promptly on slot 1. -/
theorem claim_C8_first_use_prompt :
    Controller.create.fence0Signaled = true ∧
    Controller.create.fence1Signaled = true ∧
    (beginSurfaceRenderPass Controller.create (AcquireRes.ok 0)).1.promptWait = true ∧
    (beginSurfaceRenderPass
      (presentFrame (endSurfaceRenderPass
        (beginSurfaceRenderPass Controller.create (AcquireRes.ok 0)).2))
      (AcquireRes.ok 0)).1.promptWait = true := by
  decide

/-- C9: queueing auxiliary command buffers A then B before the primary render
commands C of the current slot makes the submitted batch exactly A, B, C in
that order — every queued buffer precedes the primary commands, in queue
order. -/
theorem claim_C9_submission_order (st : Controller) (a b : Nat)
    (hq : st.cmdQueue = []) :
    (endSurfaceRenderPass
      (queueBeforeSurfaceRender (queueBeforeSurfaceRender st a) b)).submissions =
      st.submissions ++ [[a, b, st.cmdBufOf (st.curFrame % 2)]] := by
  simp [endSurfaceRenderPass, queueBeforeSurfaceRender, Controller.cmdBufOf, hq]

/-- Witness for C9 on a fresh controller with buffers 1 and 2. -/
theorem claim_C9_submission_order_witness :
    (endSurfaceRenderPass
      (queueBeforeSurfaceRender (queueBeforeSurfaceRender Controller.create 1) 2)).submissions =
      Controller.create.submissions ++
        [[1, 2, Controller.create.cmdBufOf (Controller.create.curFrame % 2)]] :=
  claim_C9_submission_order Controller.create 1 2 rfl

/-- Modelled from the spec: an externally visible event of the deferred-
deletion system — an `enqueue-delete(kind, handle)` call (which lands in the
Global Pending-Deletion Queue, `globalDeleteList_`, reachable through
`VulkanContext::Delete()`), or one complete successful frame cycle
(begin-render through present; the cycle-driving code is in a translation
unit absent from the sources). -/
inductive Ev where
  | enq (k : VkObjectKind) (h : Nat)
  | cycle
deriving DecidableEq, Repr

/-- Modelled from the spec: the record of one destroy call performed while
draining a Frame Slot's Deletion Queue: the (kind, handle) destroyed, the
index of the cycle whose begin-render drained it, and the cycles whose
fences had already been observed signaled when the destroy call ran. -/
structure DestroyRec where
  entry : VkObjectKind × Nat
  destCycle : Nat
  fencesObservedBefore : List Nat
deriving DecidableEq, Repr

/-- Modelled from the spec: state of the frame machine — the frame counter,
the Global Pending-Deletion Queue, the two Frame Slots' Deletion Queues
(`frame_[2].deleteList`), the cycles whose fences have been observed
signaled so far, and the log of destroy calls performed. The queues
themselves are the source-embedded `VulkanDeleteList`. -/
structure FrameMachine where
  counter : Nat
  global : VulkanDeleteList
  slot0 : VulkanDeleteList
  slot1 : VulkanDeleteList
  fencesObserved : List Nat
  destroyedLog : List DestroyRec
deriving DecidableEq, Repr

namespace FrameMachine

/-- Modelled from the spec: initial machine state: counter 0, all queues
empty, nothing observed, nothing destroyed. -/
def init : FrameMachine :=
  ⟨0, .empty, .empty, .empty, [], []⟩

/-- Modelled from the spec: one event step. An `enq` queues the handle into
the Global Pending-Deletion Queue. A `cycle` performs one full frame cycle
for slot `counter mod 2`: the wait on that slot's fence (from cycle 2 on
this observes the fence attached two cycles earlier, at cycle `counter - 2`,
signaled), then the drain of the slot's Deletion Queue (`PerformDeletes`),
then the absorption of the Global Pending-Deletion Queue into the emptied
slot queue (`Take`), then record/submit/present and the counter increment. -/
def step (m : FrameMachine) : Ev → FrameMachine
  | .enq k h => { m with global := m.global.queueDelete k h }
  | .cycle =>
    let s := m.counter % 2
    let observed :=
      if 2 ≤ m.counter then m.fencesObserved ++ [m.counter - 2] else m.fencesObserved
    let slotList := if s = 0 then m.slot0 else m.slot1
    let drained := slotList.PerformDeletes
    let recs := drained.1.map fun e => DestroyRec.mk e m.counter observed
    match drained.2.Take m.global with
    | some (ns, ng) =>
      if s = 0 then
        { counter := m.counter + 1, global := ng, slot0 := ns, slot1 := m.slot1,
          fencesObserved := observed, destroyedLog := m.destroyedLog ++ recs }
      else
        { counter := m.counter + 1, global := ng, slot0 := m.slot0, slot1 := ns,
          fencesObserved := observed, destroyedLog := m.destroyedLog ++ recs }
    | none => m

/-- Total multiplicity of a (kind, handle) entry across the three live
Deletion Queues (global and both slots). -/
def queuedCount (m : FrameMachine) (e : VkObjectKind × Nat) : Nat :=
  m.global.PerformDeletes.1.count e + m.slot0.PerformDeletes.1.count e +
    m.slot1.PerformDeletes.1.count e

/-- Number of destroy calls performed so far for a given (kind, handle). -/
def destroyedCount (m : FrameMachine) (e : VkObjectKind × Nat) : Nat :=
  (m.destroyedLog.filter (fun r => r.entry = e)).length

end FrameMachine

/-- Run the frame machine over a trace of events from the initial state. -/
def runMachine (tr : List Ev) : FrameMachine :=
  tr.foldl FrameMachine.step FrameMachine.init

/-- Number of completed cycles in a trace. -/
def cyclesIn (tr : List Ev) : Nat := tr.count Ev.cycle

/-- All (kind, handle) entries enqueued in a trace, in order. -/
def enqEntries : List Ev → List (VkObjectKind × Nat)
  | [] => []
  | .enq k h :: t => (k, h) :: enqEntries t
  | .cycle :: t => enqEntries t

/-- The entries enqueued while the frame counter equalled `c`, i.e. after
exactly `c` cycle events, in order. -/
def enqsAt : List Ev → Nat → List (VkObjectKind × Nat)
  | [], _ => []
  | .cycle :: _, 0 => []
  | .cycle :: t, c + 1 => enqsAt t c
  | .enq k h :: t, 0 => (k, h) :: enqsAt t 0
  | .enq _ _ :: t, c + 1 => enqsAt t (c + 1)

/-- The `VulkanDeleteList` built by enqueueing a sequence of entries into an
empty list. -/
def dlOf (es : List (VkObjectKind × Nat)) : VulkanDeleteList :=
  VulkanDeleteList.empty.enqueueAll es

/-- The destroy-call sequence a drain of `dlOf es` issues. -/
def dlCalls (es : List (VkObjectKind × Nat)) : List (VkObjectKind × Nat) :=
  (dlOf es).PerformDeletes.1

/-- The entries resident in frame slot `s` after a trace: slot `(n-1) mod 2`
holds the entries enqueued during the last completed cycle, and the other
slot holds those of the cycle before it (drains two cycles after
absorption). -/
def slotContent (tr : List Ev) (s : Nat) : List (VkObjectKind × Nat) :=
  let n := cyclesIn tr
  if n = 0 then []
  else if (n - 1) % 2 = s then enqsAt tr (n - 1)
  else if 2 ≤ n then enqsAt tr (n - 2)
  else []

/-- The destroy log accumulated over a trace: cycle `m` (for `2 ≤ m`) drains
the entries enqueued at counter `m - 2`, after observing the fences of
cycles `0 .. m-2`. -/
def destLog (tr : List Ev) : List DestroyRec :=
  ((List.range (cyclesIn tr)).map fun m =>
    if 2 ≤ m then
      (dlCalls (enqsAt tr (m - 2))).map fun e => DestroyRec.mk e m (List.range (m - 1))
    else []).flatten

/-- Closed-form description of the machine state reached by a trace. -/
def mkExplicit (tr : List Ev) : FrameMachine :=
  { counter := cyclesIn tr
    global := dlOf (enqsAt tr (cyclesIn tr))
    slot0 := dlOf (slotContent tr 0)
    slot1 := dlOf (slotContent tr 1)
    fencesObserved := List.range (cyclesIn tr - 2)
    destroyedLog := destLog tr }

theorem cyclesIn_append (t u : List Ev) : cyclesIn (t ++ u) = cyclesIn t + cyclesIn u :=
  List.count_append _ _ _

@[simp]
theorem cyclesIn_append_enq (t : List Ev) (k : VkObjectKind) (h : Nat) :
    cyclesIn (t ++ [Ev.enq k h]) = cyclesIn t := by
  rw [cyclesIn_append]
  rfl

@[simp]
theorem cyclesIn_append_cycle (t : List Ev) :
    cyclesIn (t ++ [Ev.cycle]) = cyclesIn t + 1 := by
  rw [cyclesIn_append]
  rfl

theorem enqsAt_gt (tr : List Ev) : ∀ c, cyclesIn tr < c → enqsAt tr c = [] := by
  induction tr with
  | nil => intro c _; rfl
  | cons e t ih =>
    intro c hc
    cases e with
    | enq k h =>
      have hct : cyclesIn t < c := by
        simpa [cyclesIn, List.count_cons] using hc
      match c, hct with
      | c + 1, hct => exact ih (c + 1) hct
    | cycle =>
      have hct : cyclesIn t + 1 < c := by
        simpa [cyclesIn, List.count_cons] using hc
      match c, hct with
      | c + 1, hct => exact ih c (by omega)

theorem enqsAt_append_enq (t : List Ev) (k : VkObjectKind) (h : Nat) :
    ∀ c, enqsAt (t ++ [Ev.enq k h]) c =
      enqsAt t c ++ if c = cyclesIn t then [(k, h)] else [] := by
  induction t with
  | nil =>
    intro c
    cases c with
    | zero => rfl
    | succ c =>
      have : cyclesIn ([] : List Ev) = 0 := rfl
      simp [enqsAt, this]
  | cons e t ih =>
    intro c
    cases e with
    | enq k2 h2 =>
      have hct : cyclesIn (Ev.enq k2 h2 :: t) = cyclesIn t := by
        simp [cyclesIn, List.count_cons]
      cases c with
      | zero => simp [enqsAt, ih 0, hct]
      | succ c => simp [enqsAt, ih (c + 1), hct]
    | cycle =>
      have hct : cyclesIn (Ev.cycle :: t) = cyclesIn t + 1 := by
        simp [cyclesIn, List.count_cons]
      cases c with
      | zero => simp [enqsAt, hct]
      | succ c =>
        have : (c + 1 = cyclesIn t + 1) = (c = cyclesIn t) := by
          simp
        simp [enqsAt, ih c, hct]
    
theorem enqsAt_append_cycle (t : List Ev) :
    ∀ c, enqsAt (t ++ [Ev.cycle]) c = enqsAt t c := by
  induction t with
  | nil => intro c; cases c <;> rfl
  | cons e t ih =>
    intro c
    cases e <;> cases c <;> simp [enqsAt, ih]

theorem enqEntries_append (t u : List Ev) :
    enqEntries (t ++ u) = enqEntries t ++ enqEntries u := by
  induction t with
  | nil => rfl
  | cons e t ih => cases e <;> simp [enqEntries, ih]

theorem enqsAt_append_split (t u : List Ev) :
    ∀ c, cyclesIn t ≤ c →
      enqsAt (t ++ u) c = enqsAt t c ++ enqsAt u (c - cyclesIn t) := by
  induction t with
  | nil => intro c _; simp [enqsAt, cyclesIn]
  | cons e t ih =>
    intro c hc
    cases e with
    | enq k h =>
      have hct : cyclesIn (Ev.enq k h :: t) = cyclesIn t := by
        simp [cyclesIn, List.count_cons]
      rw [hct] at hc
      cases c with
      | zero =>
        have ht : cyclesIn t = 0 := by omega
        simp [enqsAt, ih 0 (by omega), ht]
      | succ c => simpa [enqsAt, hct] using ih (c + 1) hc
    | cycle =>
      have hct : cyclesIn (Ev.cycle :: t) = cyclesIn t + 1 := by
        simp [cyclesIn, List.count_cons]
      rw [hct] at hc
      cases c with
      | zero => omega
      | succ c =>
        have h2 : cyclesIn t ≤ c := by omega
        have h3 : c + 1 - (cyclesIn t + 1) = c - cyclesIn t := by omega
        simp [enqsAt, hct, h3, ih c h2]

@[simp]
theorem PerformDeletes_snd (dl : VulkanDeleteList) :
    dl.PerformDeletes.2 = VulkanDeleteList.empty := rfl

theorem allBucketsEmpty_empty : VulkanDeleteList.empty.allBucketsEmpty := by
  decide

@[simp]
theorem Take_from_empty (g : VulkanDeleteList) :
    VulkanDeleteList.empty.Take g = some (g, VulkanDeleteList.empty) := by
  unfold VulkanDeleteList.Take
  rw [if_pos allBucketsEmpty_empty]

@[simp]
theorem bucket_empty (k : VkObjectKind) : VulkanDeleteList.empty.bucket k = [] := by
  cases k <;> rfl

theorem bucket_dlOf (es : List (VkObjectKind × Nat)) (k : VkObjectKind) :
    (dlOf es).bucket k = (es.filter (fun p => p.1 = k)).map Prod.snd := by
  rw [dlOf, VulkanDeleteList.bucket_enqueueAll, bucket_empty]
  rfl

theorem dlOf_concat (es : List (VkObjectKind × Nat)) (p : VkObjectKind × Nat) :
    dlOf (es ++ [p]) = (dlOf es).queueDelete p.1 p.2 := by
  unfold dlOf VulkanDeleteList.enqueueAll
  rw [List.foldl_append]
  rfl

@[simp]
theorem dlOf_nil : dlOf [] = VulkanDeleteList.empty := rfl

@[simp]
theorem dlCalls_nil : dlCalls [] = [] := rfl

theorem count_dlCalls (es : List (VkObjectKind × Nat)) (k : VkObjectKind) (h : Nat) :
    (dlCalls es).count (k, h) = es.count (k, h) := by
  rw [dlCalls, VulkanDeleteList.count_PerformDeletes, bucket_dlOf, ← VulkanDeleteList.count_pair]

theorem mem_dlCalls (es : List (VkObjectKind × Nat)) (e : VkObjectKind × Nat) :
    e ∈ dlCalls es ↔ e ∈ es := by
  obtain ⟨k, h⟩ := e
  rw [← List.count_pos_iff, ← List.count_pos_iff, count_dlCalls]

theorem step_cycle_zero (m : FrameMachine) (hs : m.counter % 2 = 0) :
    m.step .cycle =
      { counter := m.counter + 1
        global := VulkanDeleteList.empty
        slot0 := m.global
        slot1 := m.slot1
        fencesObserved :=
          if 2 ≤ m.counter then m.fencesObserved ++ [m.counter - 2] else m.fencesObserved
        destroyedLog := m.destroyedLog ++ m.slot0.PerformDeletes.1.map fun e =>
          DestroyRec.mk e m.counter
            (if 2 ≤ m.counter then m.fencesObserved ++ [m.counter - 2]
             else m.fencesObserved) } := by
  simp [FrameMachine.step, hs]

theorem step_cycle_one (m : FrameMachine) (hs : m.counter % 2 = 1) :
    m.step .cycle =
      { counter := m.counter + 1
        global := VulkanDeleteList.empty
        slot0 := m.slot0
        slot1 := m.global
        fencesObserved :=
          if 2 ≤ m.counter then m.fencesObserved ++ [m.counter - 2] else m.fencesObserved
        destroyedLog := m.destroyedLog ++ m.slot1.PerformDeletes.1.map fun e =>
          DestroyRec.mk e m.counter
            (if 2 ≤ m.counter then m.fencesObserved ++ [m.counter - 2]
             else m.fencesObserved) } := by
  simp [FrameMachine.step, hs]

theorem runMachine_append (t : List Ev) (e : Ev) :
    runMachine (t ++ [e]) = (runMachine t).step e := by
  unfold runMachine
  rw [List.foldl_append]
  rfl

theorem slotContent_append_enq (t : List Ev) (k : VkObjectKind) (h : Nat) (s : Nat) :
    slotContent (t ++ [Ev.enq k h]) s = slotContent t s := by
  unfold slotContent
  simp only [cyclesIn_append_enq]
  by_cases hn : cyclesIn t = 0
  · simp [hn]
  · have h1 : ¬(cyclesIn t - 1 = cyclesIn t) := by omega
    have h2 : ¬(cyclesIn t - 2 = cyclesIn t) := by omega
    simp [hn, enqsAt_append_enq, h1, h2]

theorem destLog_append_enq (t : List Ev) (k : VkObjectKind) (h : Nat) :
    destLog (t ++ [Ev.enq k h]) = destLog t := by
  unfold destLog
  simp only [cyclesIn_append_enq]
  congr 1
  apply List.map_congr_left
  intro m hm
  have hmn : m < cyclesIn t := List.mem_range.mp hm
  have h2 : ¬(m - 2 = cyclesIn t) := by omega
  simp [enqsAt_append_enq, h2]

theorem destLog_append_cycle (t : List Ev) :
    destLog (t ++ [Ev.cycle]) = destLog t ++
      (if 2 ≤ cyclesIn t then
        (dlCalls (enqsAt t (cyclesIn t - 2))).map fun e =>
          DestroyRec.mk e (cyclesIn t) (List.range (cyclesIn t - 1))
       else []) := by
  unfold destLog
  simp only [cyclesIn_append_cycle, List.range_succ, List.map_append, List.flatten_append]
  congr 1
  · congr 1
    apply List.map_congr_left
    intro m _
    simp [enqsAt_append_cycle]
  · simp [enqsAt_append_cycle]

theorem observedSucc (n : Nat) :
    (if 2 ≤ n then List.range (n - 2) ++ [n - 2] else List.range (n - 2)) =
      List.range (n - 1) := by
  by_cases hn : 2 ≤ n
  · rw [if_pos hn]
    have h1 : n - 1 = (n - 2) + 1 := by omega
    rw [h1, List.range_succ]
  · rw [if_neg hn]
    have h1 : n - 2 = 0 := by omega
    have h2 : n - 1 = 0 := by omega
    rw [h1, h2]

theorem slotContent_append_cycle_same (t : List Ev) :
    slotContent (t ++ [Ev.cycle]) (cyclesIn t % 2) = enqsAt t (cyclesIn t) := by
  unfold slotContent
  simp only [cyclesIn_append_cycle]
  have h1 : ¬(cyclesIn t + 1 = 0) := by omega
  simp [h1, enqsAt_append_cycle]

theorem slotContent_append_cycle_other (t : List Ev) (s : Nat)
    (hs : s = 1 - cyclesIn t % 2) :
    slotContent (t ++ [Ev.cycle]) s = slotContent t s := by
  unfold slotContent
  simp only [cyclesIn_append_cycle]
  have h1 : ¬(cyclesIn t + 1 = 0) := by omega
  have h2 : ¬((cyclesIn t + 1 - 1) % 2 = s) := by omega
  by_cases hn : cyclesIn t = 0
  · have h3 : ¬(2 ≤ cyclesIn t + 1) := by omega
    simp [h1, h2, h3, hn]
    intro h0
    exfalso
    omega
  · have h3 : 2 ≤ cyclesIn t + 1 := by omega
    have h4 : (cyclesIn t - 1) % 2 = s := by omega
    simp [h1, h2, h3, hn, h4, enqsAt_append_cycle]
    intro h0
    exfalso
    omega

theorem slotContent_self (t : List Ev) :
    slotContent t (cyclesIn t % 2) =
      if 2 ≤ cyclesIn t then enqsAt t (cyclesIn t - 2) else [] := by
  unfold slotContent
  by_cases hn : cyclesIn t = 0
  · have h3 : ¬(2 ≤ cyclesIn t) := by omega
    simp [hn, h3]
  · have h1 : ¬((cyclesIn t - 1) % 2 = cyclesIn t % 2) := by omega
    simp [hn, h1]

theorem runMachine_eq_mkExplicit (tr : List Ev) : runMachine tr = mkExplicit tr := by
  induction tr using List.reverseRecOn with
  | nil => rfl
  | append_singleton t e ih =>
    rw [runMachine_append, ih]
    cases e with
    | enq k h =>
      simp only [FrameMachine.step, mkExplicit, cyclesIn_append_enq,
        slotContent_append_enq, destLog_append_enq, enqsAt_append_enq, dlOf_concat]
      simp
      rw [dlOf_concat]
    | cycle =>
      rcases Nat.mod_two_eq_zero_or_one (cyclesIn t) with hs | hs
      · rw [step_cycle_zero _ (show (mkExplicit t).counter % 2 = 0 from hs)]
        have hsame := slotContent_append_cycle_same t
        rw [hs] at hsame
        have hother := slotContent_append_cycle_other t 1 (by omega)
        simp only [mkExplicit, cyclesIn_append_cycle]
        congr 1
        · rw [enqsAt_append_cycle, enqsAt_gt t _ (by omega), dlOf_nil]
        · rw [hsame]
        · rw [hother]
        · rw [observedSucc]
          congr 1
        · rw [destLog_append_cycle]
          congr 1
          rw [observedSucc]
          have hself := slotContent_self t
          rw [hs] at hself
          rw [hself]
          by_cases h2 : 2 ≤ cyclesIn t
          · rw [if_pos h2, if_pos h2]
            rfl
          · rw [if_neg h2, if_neg h2]
            rfl
      · rw [step_cycle_one _ (show (mkExplicit t).counter % 2 = 1 from hs)]
        have hsame := slotContent_append_cycle_same t
        rw [hs] at hsame
        have hother := slotContent_append_cycle_other t 0 (by omega)
        simp only [mkExplicit, cyclesIn_append_cycle]
        congr 1
        · rw [enqsAt_append_cycle, enqsAt_gt t _ (by omega), dlOf_nil]
        · rw [hother]
        · rw [hsame]
        · rw [observedSucc]
          congr 1
        · rw [destLog_append_cycle]
          congr 1
          rw [observedSucc]
          have hself := slotContent_self t
          rw [hs] at hself
          rw [hself]
          by_cases h2 : 2 ≤ cyclesIn t
          · rw [if_pos h2, if_pos h2]
            rfl
          · rw [if_neg h2, if_neg h2]
            rfl

theorem filter_length_flatten {α : Type} (L : List (List α)) (p : α → Bool) :
    (L.flatten.filter p).length = (L.map fun l => (l.filter p).length).sum := by
  induction L with
  | nil => rfl
  | cons l L ih =>
    simp [List.filter_append, ih]
    rfl

theorem filter_entry_map_mk (l : List (VkObjectKind × Nat)) (m : Nat) (obs : List Nat)
    (e : VkObjectKind × Nat) :
    ((l.map fun ent => DestroyRec.mk ent m obs).filter fun r => r.entry = e).length =
      l.count e := by
  induction l with
  | nil => rfl
  | cons a t ih =>
    by_cases ha : a = e
    · subst ha
      simp [List.count_cons, ih]
    · have : ((DestroyRec.mk a m obs).entry = e) = False := by simp [ha]
      simp [List.count_cons, this, ha, ih]

theorem sum_map_range_single (n m0 : Nat) (f : Nat → Nat)
    (hf : ∀ m, m ≠ m0 → f m = 0) :
    ((List.range n).map f).sum = if m0 < n then f m0 else 0 := by
  induction n with
  | zero => simp
  | succ n ih =>
    rw [List.range_succ, List.map_append, List.sum_append, ih]
    simp only [List.map_cons, List.map_nil, List.sum_cons, List.sum_nil, Nat.add_zero]
    by_cases h : m0 = n
    · subst h
      rw [if_neg (by omega), if_pos (by omega)]
      simp
    · rw [hf n (by omega)]
      by_cases h2 : m0 < n
      · rw [if_pos h2, if_pos (by omega)]
        simp
      · rw [if_neg h2, if_neg (by omega)]

theorem enqEntries_eq_flatten (tr : List Ev) :
    enqEntries tr = ((List.range (cyclesIn tr + 1)).map (enqsAt tr)).flatten := by
  induction tr using List.reverseRecOn with
  | nil => rfl
  | append_singleton t e ih =>
    cases e with
    | enq k h =>
      rw [enqEntries_append, ih]
      simp only [cyclesIn_append_enq]
      have hmc : (List.range (cyclesIn t)).map (enqsAt (t ++ [Ev.enq k h])) =
          (List.range (cyclesIn t)).map (enqsAt t) := by
        apply List.map_congr_left
        intro c hc
        have hcn : c < cyclesIn t := List.mem_range.mp hc
        rw [enqsAt_append_enq, if_neg (by omega)]
        simp
      rw [List.range_succ, List.map_append, List.flatten_append,
        List.map_append, List.flatten_append, hmc]
      simp [enqsAt_append_enq, enqEntries]
    | cycle =>
      rw [enqEntries_append, ih]
      simp only [cyclesIn_append_cycle]
      have hlast : enqsAt t (cyclesIn t + 1) = [] := enqsAt_gt t _ (by omega)
      have hmc : (List.range (cyclesIn t + 1 + 1)).map (enqsAt (t ++ [Ev.cycle])) =
          (List.range (cyclesIn t + 1 + 1)).map (enqsAt t) := by
        apply List.map_congr_left
        intro c _
        exact enqsAt_append_cycle t c
      rw [hmc]
      simp [List.range_succ, List.map_append, List.flatten_append, hlast, enqEntries]

theorem cyclesIn_split (t1 t2 : List Ev) (k : VkObjectKind) (h : Nat) :
    cyclesIn (t1 ++ Ev.enq k h :: t2) = cyclesIn t1 + cyclesIn t2 := by
  rw [cyclesIn_append]
  simp [cyclesIn, List.count_cons]

theorem count_eq_one_of_nodup_mem {α : Type} [BEq α] [LawfulBEq α] {l : List α} {a : α}
    (hd : l.Nodup) (ha : a ∈ l) : l.count a = 1 := by
  induction l with
  | nil => cases ha
  | cons b t ih =>
    rw [List.count_cons]
    rcases List.mem_cons.mp ha with rfl | hat
    · have hnotin : a ∉ t := (List.nodup_cons.mp hd).1
      rw [List.count_eq_zero.mpr hnotin]
      simp
    · have hbt : b ∉ t := (List.nodup_cons.mp hd).1
      have hne : a ≠ b := fun hab => hbt (hab ▸ hat)
      rw [ih (List.nodup_cons.mp hd).2 hat]
      have hab : (a == b) = false := beq_eq_false_iff_ne.mpr hne
      have hba : (b == a) = false := beq_eq_false_iff_ne.mpr (Ne.symm hne)
      simp [hab, hba]

theorem count_enqsAt (tr t1 t2 : List Ev) (k : VkObjectKind) (h : Nat)
    (hsplit : tr = t1 ++ Ev.enq k h :: t2)
    (hnodup : (enqEntries tr).Nodup) :
    ∀ c, (enqsAt tr c).count (k, h) = if c = cyclesIn t1 then 1 else 0 := by
  have hn : cyclesIn tr = cyclesIn t1 + cyclesIn t2 := by
    rw [hsplit, cyclesIn_split]
  have hmem : (k, h) ∈ enqsAt tr (cyclesIn t1) := by
    rw [hsplit, enqsAt_append_split t1 _ (cyclesIn t1) (le_refl _)]
    have h0 : cyclesIn t1 - cyclesIn t1 = 0 := by omega
    rw [h0]
    simp [enqsAt]
  have hflat := enqEntries_eq_flatten tr
  rw [hflat, List.nodup_flatten] at hnodup
  obtain ⟨hnd, hdisj⟩ := hnodup
  have hpair : (List.range (cyclesIn tr + 1)).Pairwise
      (fun a b => (enqsAt tr a).Disjoint (enqsAt tr b)) := List.pairwise_map.mp hdisj
  intro c
  by_cases hcle : c ≤ cyclesIn tr
  · by_cases hc : c = cyclesIn t1
    · subst hc
      rw [if_pos rfl]
      refine count_eq_one_of_nodup_mem ?_ hmem
      exact hnd _ (List.mem_map.mpr ⟨cyclesIn t1, List.mem_range.mpr (by omega), rfl⟩)
    · rw [if_neg hc, List.count_eq_zero]
      intro hmemc
      rcases Nat.lt_or_ge c (cyclesIn t1) with hlt | hge
      · have hd := List.pairwise_iff_getElem.mp hpair c (cyclesIn t1)
          (by rw [List.length_range]; omega) (by rw [List.length_range]; omega) hlt
        simp only [List.getElem_range] at hd
        exact hd hmemc hmem
      · have hgt : cyclesIn t1 < c := by omega
        have hd := List.pairwise_iff_getElem.mp hpair (cyclesIn t1) c
          (by rw [List.length_range]; omega) (by rw [List.length_range]; omega) hgt
        simp only [List.getElem_range] at hd
        exact hd hmem hmemc
  · have h0 : enqsAt tr c = [] := enqsAt_gt tr c (by omega)
    rw [h0, if_neg (by omega)]
    rfl

theorem destLog_count (tr : List Ev) (k : VkObjectKind) (h : Nat) :
    ((destLog tr).filter (fun r => r.entry = (k, h))).length =
      ((List.range (cyclesIn tr)).map fun m =>
        if 2 ≤ m then (enqsAt tr (m - 2)).count (k, h) else 0).sum := by
  unfold destLog
  rw [filter_length_flatten, List.map_map]
  congr 1
  apply List.map_congr_left
  intro m _
  by_cases h2 : 2 ≤ m
  · simp only [Function.comp, if_pos h2]
    rw [filter_entry_map_mk, count_dlCalls]
  · simp only [Function.comp, if_neg h2]
    rfl

theorem slotContent_counts (tr : List Ev) (k : VkObjectKind) (h : Nat) :
    (slotContent tr 0).count (k, h) + (slotContent tr 1).count (k, h) =
      (if 1 ≤ cyclesIn tr then (enqsAt tr (cyclesIn tr - 1)).count (k, h) else 0) +
      (if 2 ≤ cyclesIn tr then (enqsAt tr (cyclesIn tr - 2)).count (k, h) else 0) := by
  simp only [slotContent]
  split_ifs <;> (try simp only [List.count_nil]) <;> omega

/-- C1: over any event trace in which each (kind, handle) pair is enqueued at
most once, an enqueued handle lives in exactly one Deletion Queue until its
single destruction (queue multiplicity plus destruction multiplicity is
exactly 1); once three further cycles have completed it has been destroyed
exactly once and left every queue; and any destruction of it happens during
the begin-render of cycle `c+2` — where `c` is the cycle counter when it was
enqueued — strictly after the fence of cycle `c` has been observed
signaled. -/
theorem claim_C1_destroy_once_after_fence (tr t1 t2 : List Ev)
    (k : VkObjectKind) (h : Nat)
    (hsplit : tr = t1 ++ Ev.enq k h :: t2)
    (hnodup : (enqEntries tr).Nodup) :
    ((runMachine tr).queuedCount (k, h) + (runMachine tr).destroyedCount (k, h) = 1) ∧
    (3 ≤ cyclesIn t2 →
      (runMachine tr).destroyedCount (k, h) = 1 ∧
      (runMachine tr).queuedCount (k, h) = 0) ∧
    (∀ r ∈ (runMachine tr).destroyedLog, r.entry = (k, h) →
      r.destCycle = cyclesIn t1 + 2 ∧ cyclesIn t1 ∈ r.fencesObservedBefore) := by
  have hcnt := count_enqsAt tr t1 t2 k h hsplit hnodup
  have hn : cyclesIn tr = cyclesIn t1 + cyclesIn t2 := by
    rw [hsplit, cyclesIn_split]
  rw [runMachine_eq_mkExplicit]
  have hq : (mkExplicit tr).queuedCount (k, h) =
      (enqsAt tr (cyclesIn tr)).count (k, h) + (slotContent tr 0).count (k, h) +
        (slotContent tr 1).count (k, h) := by
    show (dlCalls (enqsAt tr (cyclesIn tr))).count (k, h) +
        (dlCalls (slotContent tr 0)).count (k, h) +
        (dlCalls (slotContent tr 1)).count (k, h) = _
    rw [count_dlCalls, count_dlCalls, count_dlCalls]
  have hq2 : (mkExplicit tr).queuedCount (k, h) =
      (if cyclesIn tr = cyclesIn t1 then 1 else 0) +
      ((if 1 ≤ cyclesIn tr then
          (if cyclesIn tr - 1 = cyclesIn t1 then 1 else 0) else 0) +
       (if 2 ≤ cyclesIn tr then
          (if cyclesIn tr - 2 = cyclesIn t1 then 1 else 0) else 0)) := by
    rw [hq, Nat.add_assoc, slotContent_counts]
    simp only [hcnt]
  have hf : ∀ m, m ≠ cyclesIn t1 + 2 →
      (if 2 ≤ m then (enqsAt tr (m - 2)).count (k, h) else 0) = 0 := by
    intro m hm
    by_cases h2 : 2 ≤ m
    · rw [if_pos h2, hcnt (m - 2), if_neg (by omega)]
    · rw [if_neg h2]
  have hdc : (mkExplicit tr).destroyedCount (k, h) =
      if 3 ≤ cyclesIn t2 then 1 else 0 := by
    show ((destLog tr).filter (fun r => r.entry = (k, h))).length = _
    rw [destLog_count, sum_map_range_single (cyclesIn tr) (cyclesIn t1 + 2) _ hf]
    have he2 : cyclesIn t1 + 2 - 2 = cyclesIn t1 := by omega
    rw [if_pos (show 2 ≤ cyclesIn t1 + 2 by omega), he2, hcnt (cyclesIn t1), if_pos rfl]
    split_ifs <;> omega
  refine ⟨?_, ?_, ?_⟩
  · rw [hq2, hdc]
    split_ifs <;> omega
  · intro h3
    refine ⟨?_, ?_⟩
    · rw [hdc, if_pos h3]
    · rw [hq2]
      split_ifs <;> omega
  · intro r hr hre
    have hr2 : r ∈ destLog tr := hr
    unfold destLog at hr2
    rw [List.mem_flatten] at hr2
    obtain ⟨l, hl, hrl⟩ := hr2
    rw [List.mem_map] at hl
    obtain ⟨m, hmr, rfl⟩ := hl
    by_cases h2 : 2 ≤ m
    · rw [if_pos h2, List.mem_map] at hrl
      obtain ⟨ent, hent, hentr⟩ := hrl
      have hentkh : ent = (k, h) := by
        rw [← hentr] at hre
        exact hre
      rw [hentkh] at hent
      have hmem2 : (k, h) ∈ enqsAt tr (m - 2) := (mem_dlCalls _ _).mp hent
      have hmc : m - 2 = cyclesIn t1 := by
        by_contra hne2
        have h0 := hcnt (m - 2)
        rw [if_neg hne2] at h0
        exact (List.count_eq_zero.mp h0) hmem2
      have hm2 : m = cyclesIn t1 + 2 := by omega
      constructor
      · rw [← hentr]
        show m = cyclesIn t1 + 2
        exact hm2
      · rw [← hentr]
        show cyclesIn t1 ∈ List.range (m - 1)
        exact List.mem_range.mpr (by omega)
    · rw [if_neg h2] at hrl
      cases hrl

/-- Witness for C1: buffer 7 enqueued before any cycle, followed by three
cycles — it sits in exactly one place throughout, is destroyed exactly once
(during cycle 2, the third cycle), and only after the fence of cycle 0 was
observed signaled. -/
theorem claim_C1_destroy_once_after_fence_witness :
    ((runMachine [Ev.enq .buffer 7, Ev.cycle, Ev.cycle, Ev.cycle]).queuedCount (.buffer, 7) +
      (runMachine [Ev.enq .buffer 7, Ev.cycle, Ev.cycle, Ev.cycle]).destroyedCount
        (.buffer, 7) = 1) ∧
    (3 ≤ cyclesIn [Ev.cycle, Ev.cycle, Ev.cycle] →
      (runMachine [Ev.enq .buffer 7, Ev.cycle, Ev.cycle, Ev.cycle]).destroyedCount
        (.buffer, 7) = 1 ∧
      (runMachine [Ev.enq .buffer 7, Ev.cycle, Ev.cycle, Ev.cycle]).queuedCount
        (.buffer, 7) = 0) ∧
    (∀ r ∈ (runMachine [Ev.enq .buffer 7, Ev.cycle, Ev.cycle, Ev.cycle]).destroyedLog,
      r.entry = (.buffer, 7) →
      r.destCycle = cyclesIn ([] : List Ev) + 2 ∧
        cyclesIn ([] : List Ev) ∈ r.fencesObservedBefore) :=
  claim_C1_destroy_once_after_fence [Ev.enq .buffer 7, Ev.cycle, Ev.cycle, Ev.cycle]
    [] [Ev.cycle, Ev.cycle, Ev.cycle] .buffer 7 rfl (by decide)
